import Mathlib

/-!
Verification of the anchor-snapping draggable-window subsystem of the
`project-tv` repository.

The development shallowly embeds the TypeScript sources:

* `src/client/src/shared/utils/vector2.ts` — the `Vector2` value class;
* `src/client/src/components/dragable_window/anchors.ts` — anchor geometry
  (`anchorToVec2`, `vec2ToAnchor`, `closestAnchorVec2ByDistance`,
  `closestAnchorVec2ByAngle`);
* `src/client/src/components/dragable_window/resizer.ts` —
  `getDeltaWindowSize`;
* `src/client/src/components/dragable_window/index.tsx` — the window motion
  controller (drag state, animation loop, drag/resize/viewport handlers),
  modelled as an explicit state machine.

JavaScript numbers are modelled as real numbers.  DOM reads are made
explicit parameters: `element.offsetWidth/offsetHeight` become an `elem`
vector, `window.innerWidth/innerHeight` a viewport vector `vp`.
-/

namespace ProjectTv

noncomputable section

open Real

/-- The `Vector2` class of `vector2.ts`: an immutable pair of numbers. -/
@[ext]
structure Vector2 where
  x : ℝ
  y : ℝ

namespace Vector2

/-- Source `Vector2.ZERO`. -/
def ZERO : Vector2 := ⟨0, 0⟩

/-- Source `Vector2.add(a, b)`. -/
def add (a b : Vector2) : Vector2 := ⟨a.x + b.x, a.y + b.y⟩

/-- Source `Vector2.subtract(a, b)`. -/
def subtract (a b : Vector2) : Vector2 := ⟨a.x - b.x, a.y - b.y⟩

/-- Source `Vector2.multiply(a, b)` (component-wise). -/
def multiply (a b : Vector2) : Vector2 := ⟨a.x * b.x, a.y * b.y⟩

/-- Source `Vector2.divide(a, b)` (component-wise). -/
def divide (a b : Vector2) : Vector2 := ⟨a.x / b.x, a.y / b.y⟩

/-- Source `Vector2.distance(a, b) = sqrt((b.x-a.x)^2 + (b.y-a.y)^2)`. -/
def distance (a b : Vector2) : ℝ :=
  Real.sqrt ((b.x - a.x) ^ 2 + (b.y - a.y) ^ 2)

/-- Source `Vector2.lerp(a, b, t)`. -/
def lerp (a b : Vector2) (t : ℝ) : Vector2 :=
  ⟨a.x + (b.x - a.x) * t, a.y + (b.y - a.y) * t⟩

/-- Source `v.magnitude()`. -/
def magnitude (v : Vector2) : ℝ := Real.sqrt (v.x * v.x + v.y * v.y)

/-- Source `v.sqrMagnitude()`. -/
def sqrMagnitude (v : Vector2) : ℝ := v.x * v.x + v.y * v.y

/-- Source `v.normalize()`: the unit vector in the direction of `v`, or `ZERO`
when the magnitude is not positive. -/
def normalize (v : Vector2) : Vector2 :=
  if v.magnitude > 0 then ⟨v.x / v.magnitude, v.y / v.magnitude⟩ else ZERO

/-- Source `v.copy()`. -/
def copy (v : Vector2) : Vector2 := ⟨v.x, v.y⟩

/-- Source `v.dot(other)`. -/
def dot (v other : Vector2) : ℝ := v.x * other.x + v.y * other.y

/-- Source `v.angleTo(other)`: `acos` of the clamped normalized dot product, `0`
when either vector has zero magnitude. -/
def angleTo (v other : Vector2) : ℝ :=
  let denominator := Real.sqrt (v.sqrMagnitude * other.sqrMagnitude)
  if denominator = 0 then 0
  else Real.arccos (min (max (v.dot other / denominator) (-1)) 1)

/-- Source `Vector2.moveTowards(a, b, maxDistanceDelta)`. -/
def moveTowards (a b : Vector2) (maxDistanceDelta : ℝ) : Vector2 :=
  let direction := subtract b a
  let dist := direction.magnitude
  if dist ≤ maxDistanceDelta ∨ dist = 0 then b.copy
  else add a (multiply direction.normalize ⟨maxDistanceDelta, maxDistanceDelta⟩)

end Vector2

/-- Source `Number.MAX_VALUE`, used by the source loops as an "infinite" sentinel.
Its exact double value is `(2^53 - 1) * 2^971`. -/
def NUMBER_MAX_VALUE : ℝ := (2 ^ 53 - 1) * 2 ^ 971

/-- Source `anchorToVec2(anchor, margin, element)` from `anchors.ts`.  The DOM
reads are explicit: `elem.x/elem.y` stand for
`element.offsetWidth/offsetHeight`, `vp.x/vp.y` for
`window.innerWidth/innerHeight`.  The `switch` is rendered as a chain of
string comparisons with the same default case. -/
def anchorToVec2 (anchor : String) (margin : ℝ) (elem vp : Vector2) : Vector2 :=
  if anchor = "NW" then ⟨margin, margin⟩
  else if anchor = "N" then ⟨vp.x / 2 - elem.x / 2, margin⟩
  else if anchor = "NE" then ⟨vp.x - elem.x - margin, margin⟩
  else if anchor = "W" then ⟨margin, vp.y / 2 - elem.y / 2⟩
  else if anchor = "E" then ⟨vp.x - elem.x - margin, vp.y / 2 - elem.y / 2⟩
  else if anchor = "SW" then ⟨margin, vp.y - elem.y - margin⟩
  else if anchor = "S" then ⟨vp.x / 2 - elem.x / 2, vp.y - elem.y - margin⟩
  else if anchor = "SE" then ⟨vp.x - elem.x - margin, vp.y - elem.y - margin⟩
  else ⟨margin, margin⟩

/-- The local `anchors` array of `vec2ToAnchor`. -/
def canonicalAnchors : List String := ["NE", "N", "NW", "W", "E", "SW", "S", "SE"]

/-- First element of `canonicalAnchors` (`anchors[0]` in the source). -/
def firstCanonical : String := "NE"

/-- The `forEach` accumulation loop of `vec2ToAnchor`: carries the running
`minDist` and `closestAnchor`. -/
def vec2ToAnchorLoop (vec2 : Vector2) (margin : ℝ) (elem vp : Vector2) :
    List String → ℝ → String → String
  | [], _, closestAnchor => closestAnchor
  | anchor :: rest, minDist, closestAnchor =>
    let anchorVec2 := anchorToVec2 anchor margin elem vp
    let dist := Vector2.distance vec2 anchorVec2
    if dist < minDist then vec2ToAnchorLoop vec2 margin elem vp rest dist anchor
    else vec2ToAnchorLoop vec2 margin elem vp rest minDist closestAnchor

/-- Source `vec2ToAnchor(vec2, margin, element)` from `anchors.ts`: nearest of the
eight canonical anchors, scanning in order with `minDist` seeded by
`Number.MAX_VALUE` and `closestAnchor` by `anchors[0]`. -/
def vec2ToAnchor (vec2 : Vector2) (margin : ℝ) (elem vp : Vector2) : String :=
  vec2ToAnchorLoop vec2 margin elem vp canonicalAnchors NUMBER_MAX_VALUE firstCanonical

/-- Source `anchorsArray[0]`: JavaScript indexing an empty array yields
`undefined`, which `anchorToVec2` sends to its default case; any
unrecognized string models that. -/
def headAnchor (anchorsArray : List String) : String :=
  match anchorsArray with
  | [] => "undefined"
  | a :: _ => a

/-- The `forEach` loop of `closestAnchorVec2ByDistance`. -/
def closestByDistanceLoop (position : Vector2) (margin : ℝ) (elem vp : Vector2) :
    List String → ℝ → Vector2 → Vector2
  | [], _, currentClosestVec2 => currentClosestVec2
  | anchor :: rest, minDist, currentClosestVec2 =>
    let anchorVec2 := anchorToVec2 anchor margin elem vp
    let dist := Vector2.distance position anchorVec2
    if dist < minDist then closestByDistanceLoop position margin elem vp rest dist anchorVec2
    else closestByDistanceLoop position margin elem vp rest minDist currentClosestVec2

/-- Source `closestAnchorVec2ByDistance(position, anchorsArray, margin, element)`
from `anchors.ts`. -/
def closestAnchorVec2ByDistance (position : Vector2) (anchorsArray : List String)
    (margin : ℝ) (elem vp : Vector2) : Vector2 :=
  let first := anchorToVec2 (headAnchor anchorsArray) margin elem vp
  closestByDistanceLoop position margin elem vp anchorsArray
    (Vector2.distance position first) first

/-- The `forEach` loop of `closestAnchorVec2ByAngle`: near-ties (angle
within `0.1` of the running `minAngle`) are resolved towards the candidate
nearer to `position`; the tie branch does not update `minAngle`. -/
def closestByAngleLoop (position direction : Vector2) (margin : ℝ) (elem vp : Vector2) :
    List String → ℝ → Vector2 → Vector2
  | [], _, currentClosestVec2 => currentClosestVec2
  | anchor :: rest, minAngle, currentClosestVec2 =>
    let anchorVec2 := anchorToVec2 anchor margin elem vp
    let angle := direction.angleTo (Vector2.subtract anchorVec2 position)
    if |angle - minAngle| < 0.1 then
      closestByAngleLoop position direction margin elem vp rest minAngle
        (if Vector2.distance position anchorVec2 <
            Vector2.distance position currentClosestVec2
         then anchorVec2 else currentClosestVec2)
    else if angle < minAngle then
      closestByAngleLoop position direction margin elem vp rest angle anchorVec2
    else
      closestByAngleLoop position direction margin elem vp rest minAngle currentClosestVec2

/-- Source `closestAnchorVec2ByAngle(position, direction, anchorsArray, margin, element)`
from `anchors.ts`. -/
def closestAnchorVec2ByAngle (position direction : Vector2) (anchorsArray : List String)
    (margin : ℝ) (elem vp : Vector2) : Vector2 :=
  closestByAngleLoop position direction margin elem vp anchorsArray
    NUMBER_MAX_VALUE (anchorToVec2 (headAnchor anchorsArray) margin elem vp)

/-- Source `getDeltaWindowSize(resizer, windowStartSize, delta, minWidth, maxWidth,
aspectRatio)` from `resizer.ts`; `cursor` stands for
`resizer.style.cursor`.  The `switch` fall-throughs become disjunctions. -/
def getDeltaWindowSize (cursor : String) (windowStartSize delta : Vector2)
    (minWidth maxWidth aspectRatio : ℝ) : Vector2 :=
  if cursor = "ne-resize" ∨ cursor = "se-resize" ∨ cursor = "e-resize" then
    ⟨max minWidth (min maxWidth (windowStartSize.x - delta.x)),
     max minWidth (min maxWidth (windowStartSize.x - delta.x)) / aspectRatio⟩
  else if cursor = "nw-resize" ∨ cursor = "sw-resize" ∨ cursor = "w-resize" then
    ⟨max minWidth (min maxWidth (windowStartSize.x + delta.x)),
     max minWidth (min maxWidth (windowStartSize.x + delta.x)) / aspectRatio⟩
  else if cursor = "n-resize" then
    ⟨max minWidth (min maxWidth (windowStartSize.x + delta.y)),
     max minWidth (min maxWidth (windowStartSize.x + delta.y)) / aspectRatio⟩
  else if cursor = "s-resize" then
    ⟨max minWidth (min maxWidth (windowStartSize.x - delta.y)),
     max minWidth (min maxWidth (windowStartSize.x - delta.y)) / aspectRatio⟩
  else windowStartSize

/-- The cursor strings of the recognized resize directions. -/
def resizeCursors : List String :=
  ["ne-resize", "se-resize", "e-resize", "nw-resize", "sw-resize", "w-resize",
   "n-resize", "s-resize"]

/-! ## The window motion controller

The component closure of `index.tsx` (`src/unnamed/part_001` variant, the
one with the bounded rolling-delta history) is modelled as an explicit
state machine.  The constants, the mutable closure variables and the event
handlers are embedded one-to-one; the rendered CSS position
(`setWindowPos`) is write-only in the source and is not tracked.  The
element size (`offsetWidth/offsetHeight`, read by `anchorToVec2` at call
time) is part of the state because the resizer drag (`resizerMove`,
`setWindowSize`) mutates it at runtime; likewise the viewport, which
changes exactly at browser-resize events.  Of `setResizerPos` only the
`style.cursor` assignment is tracked (the layout styles are rendered
output), since `resizerMove` branches on `resizer.style.cursor`. -/

/-- Constant `DRAG_LERP_FACTOR = 0.2` (smoothing factor during drag). -/
def DRAG_LERP_FACTOR : ℝ := 0.2

/-- Constant `MOVE_AVERAGE_COUNT = 5` (bounded delta-history length). -/
def MOVE_AVERAGE_COUNT : ℕ := 5

/-- Constant `SNAP_LERP_FACTOR = 0.022` (smoothing factor during snap). -/
def SNAP_LERP_FACTOR : ℝ := 0.022

/-- Constant `ANCHOR_SNAP_SPEED_THRESHOLD = 2`. -/
def ANCHOR_SNAP_SPEED_THRESHOLD : ℝ := 2

/-- Per-instance configuration: the `margin` prop, the element size at
mount time (`windowSize()` before any resizer drag), the parsed
`anchorsArray`, and the initial viewport size. -/
structure DragConfig where
  margin : ℝ
  elem0 : Vector2
  anchorsArray : List String
  vp0 : Vector2

/-- Mount-time closure constant `aspectRatio = windowStartSize.x /
windowStartSize.y`, computed once from the initial element size. -/
def aspectRatio (cfg : DragConfig) : ℝ := cfg.elem0.x / cfg.elem0.y

/-- Mount-time closure constant `maxWidth = window.innerWidth / 2`,
computed once from the initial viewport. -/
def maxWidth (cfg : DragConfig) : ℝ := cfg.vp0.x / 2

/-- The resizer's cursor before `setResizerPos` has ever written it. -/
def unsetCursor : String := ""

/-- The `style.cursor` effect of `setResizerPos(resizer, anchor)`: each of
the eight anchors assigns its resize cursor; the `default` branch assigns
none, so the previous cursor is kept.  (The layout styles the switch also
assigns are rendered output and are not tracked.) -/
def setResizerCursor (anchor : String) (old : String) : String :=
  if anchor = "NW" then "nw-resize"
  else if anchor = "N" then "n-resize"
  else if anchor = "NE" then "ne-resize"
  else if anchor = "W" then "w-resize"
  else if anchor = "E" then "e-resize"
  else if anchor = "SW" then "sw-resize"
  else if anchor = "S" then "s-resize"
  else if anchor = "SE" then "se-resize"
  else old

/-- The mutable closure state of the controller: `targetPos`, `currentPos`,
`currentAnchor`, drag bookkeeping, the resize bookkeeping (`isResizing`,
`windowStartSize`, `resizeStartMouse` and the resizer's `style.cursor`),
whether an animation frame is scheduled, the current viewport size, and the
current element size (mutated by `setWindowSize` during resizer drags). -/
@[ext]
structure MState where
  targetPos : Vector2
  currentPos : Vector2
  currentAnchor : String
  isDragging : Prop
  isResizing : Prop
  framePending : Prop
  lastMouse : Vector2
  lastMove : List Vector2
  vp : Vector2
  elem : Vector2
  windowStartSize : Vector2
  resizeStartMouse : Vector2
  cursor : String

/-- The initial closure state: position seeded from `anchorsArray[0]`, no
drag in progress, no frame scheduled, the resizer cursor assigned by the
mount-time `setResizerPos(resizer, currentAnchor)` call. -/
def initState (cfg : DragConfig) : MState :=
  let targetPos := anchorToVec2 (headAnchor cfg.anchorsArray) cfg.margin cfg.elem0 cfg.vp0
  { targetPos := targetPos
    currentPos := targetPos
    currentAnchor := headAnchor cfg.anchorsArray
    isDragging := False
    isResizing := False
    framePending := False
    lastMouse := Vector2.ZERO
    lastMove := []
    vp := cfg.vp0
    elem := cfg.elem0
    windowStartSize := cfg.elem0
    resizeStartMouse := Vector2.ZERO
    cursor := setResizerCursor (headAnchor cfg.anchorsArray) unsetCursor }

section
open Classical

/-- Handler `dragStart(e)`: a no-op while resizing; otherwise begins a drag
with both `targetPos` and `currentPos` reset to the current anchor's
resolved position, clears the delta history, records the mouse position and
schedules an animation frame. -/
def dragStart (cfg : DragConfig) (s : MState) (mouse : Vector2) : MState :=
  if s.isResizing then s
  else
    { s with
      isDragging := True
      lastMove := []
      lastMouse := mouse
      targetPos := anchorToVec2 s.currentAnchor cfg.margin s.elem s.vp
      currentPos := anchorToVec2 s.currentAnchor cfg.margin s.elem s.vp
      framePending := True }

/-- Handler `dragMove(e)`: pushes the pointer delta into the bounded
history (the `while (length > MOVE_AVERAGE_COUNT) shift()` loop keeps the
most recent five), updates `lastMouse` and accumulates the delta into
`targetPos`. -/
def dragMove (s : MState) (mouse : Vector2) : MState :=
  let delta := Vector2.subtract mouse s.lastMouse
  let pushed := s.lastMove ++ [delta]
  { s with
    lastMove := pushed.drop (pushed.length - MOVE_AVERAGE_COUNT)
    lastMouse := mouse
    targetPos := Vector2.add s.targetPos delta }

/-- The `moveAverage` computation of `dragEnd`: component sum of the delta
history scaled by `1 / lastMove.length`. -/
def moveAverage (lastMove : List Vector2) : Vector2 :=
  Vector2.multiply (lastMove.foldl Vector2.add Vector2.ZERO)
    ⟨1 / lastMove.length, 1 / lastMove.length⟩

/-- Handler `dragEnd()`: ends the drag; when the delta history is non-empty
(the source tests truthiness of `lastMove[lastMove.length - 1]`) and the
average delta's magnitude exceeds the snap-speed threshold, the next target
is the angle-based choice seen from the rendered position `currentPos`;
otherwise the distance-based choice from `targetPos`.  `currentAnchor` is
re-derived from the new target, the resizer cursor is refreshed via
`setResizerPos(resizer, currentAnchor)` and a frame is scheduled. -/
def dragEnd (cfg : DragConfig) (s : MState) : MState :=
  if s.lastMove ≠ [] ∧
      (moveAverage s.lastMove).magnitude > ANCHOR_SNAP_SPEED_THRESHOLD then
    let targetPos := closestAnchorVec2ByAngle s.currentPos
      (moveAverage s.lastMove).normalize cfg.anchorsArray cfg.margin s.elem s.vp
    { s with
      isDragging := False
      targetPos := targetPos
      currentAnchor := vec2ToAnchor targetPos cfg.margin s.elem s.vp
      cursor := setResizerCursor (vec2ToAnchor targetPos cfg.margin s.elem s.vp) s.cursor
      framePending := True }
  else
    let targetPos := closestAnchorVec2ByDistance s.targetPos cfg.anchorsArray
      cfg.margin s.elem s.vp
    { s with
      isDragging := False
      targetPos := targetPos
      currentAnchor := vec2ToAnchor targetPos cfg.margin s.elem s.vp
      cursor := setResizerCursor (vec2ToAnchor targetPos cfg.margin s.elem s.vp) s.cursor
      framePending := True }

/-- The animation callback `updatePosition()`: one easing step of
`currentPos` towards `targetPos` (drag-time or snap-time factor), then
reschedules itself exactly when still more than one unit away from the
target or still dragging. -/
def updatePosition (s : MState) : MState :=
  let lerpFactor := if s.isDragging then DRAG_LERP_FACTOR else SNAP_LERP_FACTOR
  let currentPos := Vector2.lerp s.currentPos s.targetPos lerpFactor
  { s with
    currentPos := currentPos
    framePending := Vector2.distance currentPos s.targetPos > 1 ∨ s.isDragging }

/-- Handler `resizerMove(e)`: a no-op unless resizing; otherwise the new
width is the horizontal (or, for the n/s cursors, vertical) drag applied to
`windowStartSize.x`, clamped to `[200, maxWidth]`, with an unrecognized
cursor keeping the start width; `setWindowSize` then updates the element to
that width at the mount-time aspect ratio.  The `setWindowPos` call writes
only the rendered CSS position (neither `targetPos` nor `currentPos`), and
no animation frame is scheduled. -/
def resizerMove (cfg : DragConfig) (s : MState) (mouse : Vector2) : MState :=
  if s.isResizing then
    let delta := Vector2.subtract mouse s.resizeStartMouse
    let newWidth :=
      if s.cursor = "ne-resize" ∨ s.cursor = "se-resize" ∨ s.cursor = "e-resize" then
        max 200 (min (maxWidth cfg) (s.windowStartSize.x - delta.x))
      else if s.cursor = "nw-resize" ∨ s.cursor = "sw-resize" ∨ s.cursor = "w-resize" then
        max 200 (min (maxWidth cfg) (s.windowStartSize.x + delta.x))
      else if s.cursor = "n-resize" then
        max 200 (min (maxWidth cfg) (s.windowStartSize.x + delta.y))
      else if s.cursor = "s-resize" then
        max 200 (min (maxWidth cfg) (s.windowStartSize.x - delta.y))
      else s.windowStartSize.x
    { s with elem := ⟨newWidth, newWidth / aspectRatio cfg⟩ }
  else s

end

/-- Handler `onBrowserResize()`: the viewport has changed; the target
position is re-resolved for the unchanged `currentAnchor` under the new
viewport and a frame is scheduled. -/
def onBrowserResize (cfg : DragConfig) (s : MState) (vp : Vector2) : MState :=
  { s with
    vp := vp
    targetPos := anchorToVec2 s.currentAnchor cfg.margin s.elem vp
    framePending := True }

/-- Handler `resizerStart(e)`: raises the `isResizing` flag and records the
mouse position and the element size at the start of the resize drag. -/
def resizerStart (s : MState) (mouse : Vector2) : MState :=
  { s with
    isResizing := True
    resizeStartMouse := mouse
    windowStartSize := s.elem }

/-- Handler `resizerEnd()`. -/
def resizerEnd (s : MState) : MState := { s with isResizing := False }

/-- One event of the controller: a pointer event (drag or resizer), an
animation frame (enabled only while one is scheduled), or a browser resize
delivering the new viewport size.  `dragMove`/`dragEnd` fire only during a
drag because their document listeners are attached on `dragStart` and
removed on `dragEnd`; `resizerMove` carries its own `isResizing` guard in
its body, so the event is always representable. -/
inductive Step (cfg : DragConfig) : MState → MState → Prop
  | dragStart (s : MState) (mouse : Vector2) : Step cfg s (dragStart cfg s mouse)
  | dragMove (s : MState) (mouse : Vector2) (h : s.isDragging) :
      Step cfg s (dragMove s mouse)
  | dragEnd (s : MState) (h : s.isDragging) : Step cfg s (dragEnd cfg s)
  | frame (s : MState) (h : s.framePending) : Step cfg s (updatePosition s)
  | browserResize (s : MState) (vp : Vector2) : Step cfg s (onBrowserResize cfg s vp)
  | resizerStart (s : MState) (mouse : Vector2) : Step cfg s (resizerStart s mouse)
  | resizerMove (s : MState) (mouse : Vector2) : Step cfg s (resizerMove cfg s mouse)
  | resizerEnd (s : MState) : Step cfg s (resizerEnd s)

/-- States reachable from the mount-time state by event dispatch. -/
def Reachable (cfg : DragConfig) (s : MState) : Prop :=
  Relation.ReflTransGen (Step cfg) (initState cfg) s

/-! ## Concrete instances used by individual claims -/

/-- A string that is not one of the eight recognized anchor names. -/
def unknownAnchorString : String := "CENTER"

/-- The anchor name NW. -/
def anchorNW : String := "NW"

/-- The anchor name NE. -/
def anchorNE : String := "NE"

/-- The anchor name N. -/
def anchorN : String := "N"

/-- The anchor name E. -/
def anchorE : String := "E"

/-- The anchor name SW. -/
def anchorSW : String := "SW"

/-- The anchor name S. -/
def anchorS : String := "S"

/-- The anchor name W. -/
def anchorW : String := "W"

/-- The anchor name SE. -/
def anchorSE : String := "SE"

/-- The east resize cursor string. -/
def cursorE : String := "e-resize"

/-- The northwest resize cursor string. -/
def cursorNWResize : String := "nw-resize"

/-- A concrete window configuration: margin 15, a 100×100 element, anchors
NW and NE, a 1000×800 viewport. -/
def c1Cfg : DragConfig := ⟨15, ⟨100, 100⟩, ["NW", "NE"], ⟨1000, 800⟩⟩

/-- State of `c1Cfg` after `dragStart` at mouse (0,0). -/
def c1S1 : MState :=
  ⟨⟨15, 15⟩, ⟨15, 15⟩, anchorNW, True, False, True, ⟨0, 0⟩, [], ⟨1000, 800⟩,
   ⟨100, 100⟩, ⟨100, 100⟩, ⟨0, 0⟩, cursorNWResize⟩

/-- State after a further `dragMove` to mouse (2,0). -/
def c1S2 : MState :=
  ⟨⟨17, 15⟩, ⟨15, 15⟩, anchorNW, True, False, True, ⟨2, 0⟩, [⟨2, 0⟩], ⟨1000, 800⟩,
   ⟨100, 100⟩, ⟨100, 100⟩, ⟨0, 0⟩, cursorNWResize⟩

/-- State after one animation frame during the drag. -/
def c1S3 : MState :=
  ⟨⟨17, 15⟩, ⟨77 / 5, 15⟩, anchorNW, True, False, True, ⟨2, 0⟩, [⟨2, 0⟩],
   ⟨1000, 800⟩, ⟨100, 100⟩, ⟨100, 100⟩, ⟨0, 0⟩, cursorNWResize⟩

/-- State after `dragEnd` (slow release: distance-based snap back to NW). -/
def c1S4 : MState :=
  ⟨⟨15, 15⟩, ⟨77 / 5, 15⟩, anchorNW, False, False, True, ⟨2, 0⟩, [⟨2, 0⟩],
   ⟨1000, 800⟩, ⟨100, 100⟩, ⟨100, 100⟩, ⟨0, 0⟩, cursorNWResize⟩

/-- State after the settling animation frame: the loop's rescheduling
condition fails although `currentPos` has not reached the anchor. -/
def c1S5 : MState :=
  ⟨⟨15, 15⟩, ⟨19239 / 1250, 15⟩, anchorNW, False, False, False, ⟨2, 0⟩,
   [⟨2, 0⟩], ⟨1000, 800⟩, ⟨100, 100⟩, ⟨100, 100⟩, ⟨0, 0⟩, cursorNWResize⟩

/-- A concrete configuration for the drag-end claim. -/
def c4Cfg : DragConfig := ⟨15, ⟨100, 100⟩, ["NW", "NE"], ⟨1000, 800⟩⟩

/-- A mid-drag state with a fast recent delta history. -/
def c4S : MState :=
  ⟨⟨300, 300⟩, ⟨200, 200⟩, anchorNW, True, False, True, ⟨0, 0⟩, [⟨10, 0⟩],
   ⟨1000, 800⟩, ⟨100, 100⟩, ⟨100, 100⟩, ⟨0, 0⟩, cursorNWResize⟩

/-- A concrete configuration for the drag-start claim. -/
def c9Cfg : DragConfig := ⟨20, ⟨120, 80⟩, ["SE", "NW"], ⟨1024, 768⟩⟩

/-- A resting state (not resizing) whose `currentPos` retains a small
residual offset from the anchor position. -/
def c9S : MState :=
  ⟨⟨969 / 2, 669⟩, ⟨484, 669⟩, anchorSE, False, False, False, ⟨0, 0⟩, [],
   ⟨1024, 768⟩, ⟨120, 80⟩, ⟨120, 80⟩, ⟨0, 0⟩, cursorE⟩

/-- Margin of the angle-selection counterexample. -/
def c3Margin : ℝ := 2059125

/-- Element size of the angle-selection counterexample. -/
def c3Elem : Vector2 := ⟨100, 100⟩

/-- Viewport of the angle-selection counterexample. -/
def c3Vp : Vector2 := ⟨25837516, 4060550⟩

/-- Window position of the angle-selection counterexample. -/
def c3P : Vector2 := ⟨0, 1800725⟩

/-- Drag direction of the angle-selection counterexample. -/
def c3Dir : Vector2 := ⟨1, 0⟩

/-- Candidate anchors of the angle-selection counterexample. -/
def c3List : List String := ["NW", "W", "N"]

/-- Margin of the clear-winner witness configuration. -/
def c3wMargin : ℝ := 15

/-- Element size of the clear-winner witness configuration. -/
def c3wElem : Vector2 := ⟨100, 2 / 3⟩

/-- Viewport of the clear-winner witness configuration. -/
def c3wVp : Vector2 := ⟨1000, 32⟩

/-- Window position of the clear-winner witness configuration. -/
def c3wP : Vector2 := ⟨14, 15⟩

/-- Candidate anchors of the clear-winner witness configuration. -/
def c3wList : List String := ["NW", "SW"]

/-! ## Shared lemmas about the vector operations -/

theorem Vector2.distance_nonneg (a b : Vector2) : 0 ≤ Vector2.distance a b :=
  Real.sqrt_nonneg _

theorem Vector2.distance_self (a : Vector2) : Vector2.distance a a = 0 := by
  simp [Vector2.distance]

theorem Vector2.distance_eq_zero_iff (a b : Vector2) :
    Vector2.distance a b = 0 ↔ a = b := by
  constructor
  · intro h
    have hsum : (b.x - a.x) ^ 2 + (b.y - a.y) ^ 2 ≤ 0 :=
      Real.sqrt_eq_zero'.mp h
    have hx : b.x - a.x = 0 := by nlinarith [sq_nonneg (b.x - a.x), sq_nonneg (b.y - a.y)]
    have hy : b.y - a.y = 0 := by nlinarith [sq_nonneg (b.x - a.x), sq_nonneg (b.y - a.y)]
    ext
    · linarith
    · linarith
  · rintro rfl
    exact Vector2.distance_self a

theorem Vector2.distance_pos_of_ne {a b : Vector2} (h : a ≠ b) :
    0 < Vector2.distance a b := by
  rcases lt_or_eq_of_le (Vector2.distance_nonneg a b) with hlt | heq
  · exact hlt
  · exact absurd ((Vector2.distance_eq_zero_iff a b).mp heq.symm) h

theorem Vector2.distance_eq_abs_x {a b : Vector2} (h : a.y = b.y) :
    Vector2.distance a b = |b.x - a.x| := by
  rw [Vector2.distance, h, sub_self]
  rw [show (0:ℝ) ^ 2 = 0 by norm_num, add_zero, Real.sqrt_sq_eq_abs]

theorem Vector2.distance_eq_of_sq {a b : Vector2} {r : ℝ} (hr : 0 ≤ r)
    (h : (b.x - a.x) ^ 2 + (b.y - a.y) ^ 2 = r ^ 2) :
    Vector2.distance a b = r := by
  rw [Vector2.distance, h, Real.sqrt_sq hr]

theorem Vector2.magnitude_eq_of_sq {v : Vector2} {r : ℝ} (hr : 0 ≤ r)
    (h : v.x * v.x + v.y * v.y = r ^ 2) :
    Vector2.magnitude v = r := by
  rw [Vector2.magnitude, h, Real.sqrt_sq hr]

theorem Vector2.magnitude_nonneg (v : Vector2) : 0 ≤ Vector2.magnitude v :=
  Real.sqrt_nonneg _

theorem Vector2.magnitude_subtract (a b : Vector2) :
    Vector2.magnitude (Vector2.subtract b a) = Vector2.distance a b := by
  rw [Vector2.magnitude, Vector2.distance]
  exact congrArg Real.sqrt (by simp [Vector2.subtract]; ring)

theorem Vector2.copy_eq (v : Vector2) : Vector2.copy v = v := rfl

/-! ## Claim C5: resized width stays within the clamp bounds -/

/-- Claim C5: for every active cursor direction, start size, drag delta and
clamp bounds with `minWidth ≤ maxWidth`, the width component returned by
`getDeltaWindowSize` lies within `[minWidth, maxWidth]`, regardless of the
delta magnitude. -/
theorem resizedSize_width_within_bounds (cursor : String)
    (windowStartSize delta : Vector2) (minWidth maxWidth aspectRatio : ℝ)
    (hcursor : cursor ∈ resizeCursors) (hwidth : minWidth ≤ maxWidth) :
    minWidth ≤ (getDeltaWindowSize cursor windowStartSize delta minWidth maxWidth aspectRatio).x ∧
    (getDeltaWindowSize cursor windowStartSize delta minWidth maxWidth aspectRatio).x ≤ maxWidth := by
  simp only [resizeCursors, List.mem_cons, List.not_mem_nil, or_false] at hcursor
  rcases hcursor with rfl | rfl | rfl | rfl | rfl | rfl | rfl | rfl <;>
    simp only [getDeltaWindowSize, if_pos, if_neg, String.reduceEq, or_self,
      or_false, false_or, if_true, if_false] <;>
    exact ⟨le_max_left _ _, max_le hwidth (min_le_left _ _)⟩

/-- Witness for C5 at the east cursor with a delta far beyond the range. -/
theorem resizedSize_width_within_bounds_witness :
    cursorE ∈ resizeCursors ∧ (200 : ℝ) ≤ 500 ∧
    (200 : ℝ) ≤ (getDeltaWindowSize cursorE ⟨300, 200⟩ ⟨10000, 0⟩ 200 500 (16 / 9)).x ∧
    (getDeltaWindowSize cursorE ⟨300, 200⟩ ⟨10000, 0⟩ 200 500 (16 / 9)).x ≤ 500 := by
  refine ⟨by decide, by norm_num, ?_⟩
  exact resizedSize_width_within_bounds cursorE ⟨300, 200⟩ ⟨10000, 0⟩ 200 500
    (16 / 9) (by decide) (by norm_num)

/-! ## Claim C6: viewport resize re-anchors without touching drag state -/

/-- Claim C6: the browser-resize handler keeps `currentAnchor` and sets the
window's target position to `anchorToVec2` of that same anchor under the
new viewport; `currentPos`, the drag/resize flags, the pointer bookkeeping,
the element size and the resize bookkeeping are all unchanged (only a frame
is scheduled). -/
theorem browserResize_preserves_anchor (cfg : DragConfig) (s : MState) (vp : Vector2) :
    (onBrowserResize cfg s vp).currentAnchor = s.currentAnchor ∧
    (onBrowserResize cfg s vp).targetPos =
      anchorToVec2 s.currentAnchor cfg.margin s.elem vp ∧
    (onBrowserResize cfg s vp).vp = vp ∧
    (onBrowserResize cfg s vp).currentPos = s.currentPos ∧
    (onBrowserResize cfg s vp).isDragging = s.isDragging ∧
    (onBrowserResize cfg s vp).isResizing = s.isResizing ∧
    (onBrowserResize cfg s vp).lastMouse = s.lastMouse ∧
    (onBrowserResize cfg s vp).lastMove = s.lastMove ∧
    (onBrowserResize cfg s vp).elem = s.elem ∧
    (onBrowserResize cfg s vp).windowStartSize = s.windowStartSize ∧
    (onBrowserResize cfg s vp).resizeStartMouse = s.resizeStartMouse ∧
    (onBrowserResize cfg s vp).cursor = s.cursor ∧
    (onBrowserResize cfg s vp).framePending = True :=
  ⟨rfl, rfl, rfl, rfl, rfl, rfl, rfl, rfl, rfl, rfl, rfl, rfl, rfl⟩

/-! ## Claim C7: normalize is total and produces unit vectors -/

/-- Claim C7: normalizing the zero vector yields the zero vector, and for
every vector of nonzero magnitude the normalized vector has magnitude 1. -/
theorem normalize_zero_and_unit :
    Vector2.normalize Vector2.ZERO = Vector2.ZERO ∧
    ∀ v : Vector2, v.magnitude ≠ 0 → (v.normalize).magnitude = 1 := by
  constructor
  · have h0 : Vector2.magnitude Vector2.ZERO = 0 := by
      simp [Vector2.magnitude, Vector2.ZERO]
    rw [Vector2.normalize, h0, if_neg (lt_irrefl 0)]
  · intro v hv
    have hm : 0 < v.magnitude :=
      lt_of_le_of_ne (Vector2.magnitude_nonneg v) (Ne.symm hv)
    have hmm : v.magnitude * v.magnitude = v.x * v.x + v.y * v.y :=
      Real.mul_self_sqrt (by nlinarith [mul_self_nonneg v.x, mul_self_nonneg v.y])
    rw [Vector2.normalize, if_pos hm]
    have harg : v.x / v.magnitude * (v.x / v.magnitude) +
        v.y / v.magnitude * (v.y / v.magnitude) = 1 := by
      field_simp
      linarith [hmm]
    rw [Vector2.magnitude, harg, Real.sqrt_one]

/-- Witness for C7 at the vector (3, 4). -/
theorem normalize_zero_and_unit_witness :
    Vector2.magnitude ⟨3, 4⟩ ≠ 0 ∧
    Vector2.magnitude (Vector2.normalize ⟨3, 4⟩) = 1 := by
  have h5 : Vector2.magnitude ⟨3, 4⟩ = 5 :=
    Vector2.magnitude_eq_of_sq (by norm_num) (by norm_num)
  exact ⟨by rw [h5]; norm_num, normalize_zero_and_unit.2 ⟨3, 4⟩ (by rw [h5]; norm_num)⟩

/-! ## Claim C8: unknown anchor strings fall back to the NW placement -/

/-- Claim C8: for every string outside the eight recognized anchor names,
`anchorToVec2` returns `(margin, margin)` — the NW placement — for every
margin, element size and viewport. -/
theorem anchorToVec2_default_on_unknown (anchor : String) (margin : ℝ)
    (elem vp : Vector2) (h : anchor ∉ canonicalAnchors) :
    anchorToVec2 anchor margin elem vp = ⟨margin, margin⟩ := by
  simp only [canonicalAnchors, List.mem_cons, List.not_mem_nil, or_false,
    not_or] at h
  obtain ⟨hNE, hN, hNW, hW, hE, hSW, hS, hSE⟩ := h
  rw [anchorToVec2, if_neg hNW, if_neg hN, if_neg hNE, if_neg hW, if_neg hE,
    if_neg hSW, if_neg hS, if_neg hSE]

/-- Witness for C8 at the string "CENTER". -/
theorem anchorToVec2_default_on_unknown_witness :
    unknownAnchorString ∉ canonicalAnchors ∧
    anchorToVec2 unknownAnchorString 15 ⟨100, 100⟩ ⟨1000, 800⟩ = ⟨15, 15⟩ :=
  ⟨by decide, anchorToVec2_default_on_unknown unknownAnchorString 15 ⟨100, 100⟩
    ⟨1000, 800⟩ (by decide)⟩

/-! ## Claim C9: drag start re-seeds both positions from the anchor -/

/-- Claim C9: when not resizing, `dragStart` resets both `targetPos` and
`currentPos` to the current anchor's resolved position (and clears the
delta history) before any drag-move delta is applied. -/
theorem dragStart_resets_to_anchor (cfg : DragConfig) (s : MState)
    (mouse : Vector2) (h : ¬ s.isResizing) :
    (dragStart cfg s mouse).targetPos =
      anchorToVec2 s.currentAnchor cfg.margin s.elem s.vp ∧
    (dragStart cfg s mouse).currentPos =
      anchorToVec2 s.currentAnchor cfg.margin s.elem s.vp ∧
    (dragStart cfg s mouse).lastMove = [] := by
  rw [dragStart, if_neg h]
  exact ⟨rfl, rfl, rfl⟩

/-- Witness for C9 at a resting state carrying a residual offset. -/
theorem dragStart_resets_to_anchor_witness :
    ¬ c9S.isResizing ∧
    ((dragStart c9Cfg c9S ⟨5, 5⟩).targetPos =
        anchorToVec2 c9S.currentAnchor c9Cfg.margin c9S.elem c9S.vp ∧
      (dragStart c9Cfg c9S ⟨5, 5⟩).currentPos =
        anchorToVec2 c9S.currentAnchor c9Cfg.margin c9S.elem c9S.vp ∧
      (dragStart c9Cfg c9S ⟨5, 5⟩).lastMove = []) :=
  ⟨fun h => h, dragStart_resets_to_anchor c9Cfg c9S ⟨5, 5⟩ (fun h => h)⟩

/-! ## Claim C4: drag-end anchor selection by velocity -/

/-- Claim C4: on drag end, when the delta history is non-empty and the
average delta's magnitude exceeds the snap-speed threshold, the next target
is selected by `closestAnchorVec2ByAngle` from the rendered position using
the normalized average direction; otherwise by
`closestAnchorVec2ByDistance` on the current target position. -/
theorem dragEnd_velocity_selection (cfg : DragConfig) (s : MState) :
    (s.lastMove ≠ [] ∧
        (moveAverage s.lastMove).magnitude > ANCHOR_SNAP_SPEED_THRESHOLD →
      (dragEnd cfg s).targetPos =
        closestAnchorVec2ByAngle s.currentPos (moveAverage s.lastMove).normalize
          cfg.anchorsArray cfg.margin s.elem s.vp) ∧
    (¬ (s.lastMove ≠ [] ∧
        (moveAverage s.lastMove).magnitude > ANCHOR_SNAP_SPEED_THRESHOLD) →
      (dragEnd cfg s).targetPos =
        closestAnchorVec2ByDistance s.targetPos cfg.anchorsArray
          cfg.margin s.elem s.vp) := by
  constructor
  · intro h
    rw [dragEnd, if_pos h]
  · intro h
    rw [dragEnd, if_neg h]

/-- Witness for C4: a fast rightward flick (average delta (10,0)) takes the
angle-based branch. -/
theorem dragEnd_velocity_selection_witness :
    (c4S.lastMove ≠ [] ∧
      (moveAverage c4S.lastMove).magnitude > ANCHOR_SNAP_SPEED_THRESHOLD) ∧
    (dragEnd c4Cfg c4S).targetPos =
      closestAnchorVec2ByAngle c4S.currentPos (moveAverage c4S.lastMove).normalize
        c4Cfg.anchorsArray c4Cfg.margin c4S.elem c4S.vp := by
  have havg : moveAverage c4S.lastMove = ⟨10, 0⟩ := by
    simp [moveAverage, c4S, Vector2.add, Vector2.multiply, Vector2.ZERO]
  have hfast : c4S.lastMove ≠ [] ∧
      (moveAverage c4S.lastMove).magnitude > ANCHOR_SNAP_SPEED_THRESHOLD := by
    refine ⟨by simp [c4S], ?_⟩
    rw [havg, @Vector2.magnitude_eq_of_sq ⟨10, 0⟩ 10 (by norm_num) (by norm_num)]
    rw [ANCHOR_SNAP_SPEED_THRESHOLD]
    norm_num
  exact ⟨hfast, (dragEnd_velocity_selection c4Cfg c4S).1 hfast⟩

/-! ## Fold lemmas for the nearest-anchor scan -/

theorem vec2ToAnchorLoop_stall (v : Vector2) (m : ℝ) (e vp : Vector2) :
    ∀ (l : List String) (minDist : ℝ) (best : String),
      (∀ b ∈ l, ¬ Vector2.distance v (anchorToVec2 b m e vp) < minDist) →
      vec2ToAnchorLoop v m e vp l minDist best = best := by
  intro l
  induction l with
  | nil => intro minDist best _; rfl
  | cons a rest ih =>
    intro minDist best h
    simp only [vec2ToAnchorLoop]
    rw [if_neg (h a (List.mem_cons_self a rest))]
    exact ih minDist best (fun b hb => h b (List.mem_cons_of_mem a hb))

theorem vec2ToAnchorLoop_eq_of_zero (v : Vector2) (m : ℝ) (e vp : Vector2) (a : String) :
    ∀ (l : List String) (minDist : ℝ) (best : String),
      a ∈ l →
      Vector2.distance v (anchorToVec2 a m e vp) = 0 →
      (∀ b ∈ l, b ≠ a → 0 < Vector2.distance v (anchorToVec2 b m e vp)) →
      0 < minDist →
      vec2ToAnchorLoop v m e vp l minDist best = a := by
  intro l
  induction l with
  | nil => intro minDist best h; exact absurd h (List.not_mem_nil a)
  | cons c rest ih =>
    intro minDist best hmem h0 hpos hmin
    by_cases hca : c = a
    · subst hca
      simp only [vec2ToAnchorLoop]
      rw [h0, if_pos hmin]
      exact vec2ToAnchorLoop_stall v m e vp rest 0 c
        (fun b hb => not_lt.mpr (Vector2.distance_nonneg v _))
    · have ha' : a ∈ rest := by
        rcases List.mem_cons.mp hmem with h | h
        · exact absurd h.symm hca
        · exact h
      have hcpos : 0 < Vector2.distance v (anchorToVec2 c m e vp) :=
        hpos c (List.mem_cons_self c rest) hca
      have hrest : ∀ b ∈ rest, b ≠ a → 0 < Vector2.distance v (anchorToVec2 b m e vp) :=
        fun b hb hba => hpos b (List.mem_cons_of_mem c hb) hba
      simp only [vec2ToAnchorLoop]
      by_cases hlt : Vector2.distance v (anchorToVec2 c m e vp) < minDist
      · rw [if_pos hlt]
        exact ih _ _ ha' h0 hrest hcpos
      · rw [if_neg hlt]
        exact ih _ _ ha' h0 hrest hmin

/-- Under a non-degenerate margin/element/viewport (the element plus both
margins fits strictly inside the viewport in both axes), the eight
canonical anchors have pairwise distinct positions. -/
theorem anchorToVec2_injOn (m : ℝ) (e vp : Vector2)
    (hx : 2 * m + e.x < vp.x) (hy : 2 * m + e.y < vp.y) :
    ∀ a ∈ canonicalAnchors, ∀ b ∈ canonicalAnchors, a ≠ b →
      anchorToVec2 a m e vp ≠ anchorToVec2 b m e vp := by
  intro a ha b hb hab
  simp only [canonicalAnchors, List.mem_cons, List.not_mem_nil, or_false] at ha hb
  rcases ha with rfl | rfl | rfl | rfl | rfl | rfl | rfl | rfl <;>
    rcases hb with rfl | rfl | rfl | rfl | rfl | rfl | rfl | rfl <;>
    first
    | exact absurd rfl hab
    | (intro h
       simp [anchorToVec2, Vector2.mk.injEq] at h
       all_goals first
       | (obtain ⟨h1, h2⟩ := h; linarith)
       | linarith)

/-! ## Claim C2: anchor/position round trip -/

/-- Claim C2: for every canonical anchor and every non-degenerate margin,
element size and viewport, converting the anchor to its position with
`anchorToVec2` and back with `vec2ToAnchor` yields the same anchor. -/
theorem anchor_roundtrip (a : String) (margin : ℝ) (elem vp : Vector2)
    (ha : a ∈ canonicalAnchors)
    (hx : 2 * margin + elem.x < vp.x) (hy : 2 * margin + elem.y < vp.y) :
    vec2ToAnchor (anchorToVec2 a margin elem vp) margin elem vp = a := by
  rw [vec2ToAnchor]
  apply vec2ToAnchorLoop_eq_of_zero _ _ _ _ a canonicalAnchors _ _ ha
    (Vector2.distance_self _)
  · intro b hb hba
    exact Vector2.distance_pos_of_ne
      (anchorToVec2_injOn margin elem vp hx hy a ha b hb (Ne.symm hba))
  · rw [NUMBER_MAX_VALUE]
    positivity

/-- Witness for C2 at the SE anchor with margin 15, a 100×100 element and
a 1000×800 viewport. -/
theorem anchor_roundtrip_witness :
    anchorSE ∈ canonicalAnchors ∧
    2 * (15 : ℝ) + (⟨100, 100⟩ : Vector2).x < (⟨1000, 800⟩ : Vector2).x ∧
    2 * (15 : ℝ) + (⟨100, 100⟩ : Vector2).y < (⟨1000, 800⟩ : Vector2).y ∧
    vec2ToAnchor (anchorToVec2 anchorSE 15 ⟨100, 100⟩ ⟨1000, 800⟩) 15
      ⟨100, 100⟩ ⟨1000, 800⟩ = anchorSE :=
  ⟨by decide, by norm_num, by norm_num,
    anchor_roundtrip anchorSE 15 ⟨100, 100⟩ ⟨1000, 800⟩ (by decide)
      (by norm_num) (by norm_num)⟩

/-! ## Claim C10: moveTowards never overshoots -/

/-- Amended claim C10: for a nonnegative `maxDistanceDelta`,
`Vector2.moveTowards a b δ` returns `b` exactly when the distance from `a`
to `b` is at most `δ` or zero, and otherwise returns the point at distance
exactly `δ` from `a` along the direction from `a` towards `b` — the point
`lerp a b (δ / distance a b)` with interpolation parameter in `[0, 1)`.
(With a negative `δ` the result lies at distance `|δ|`, see the
counterexample.) -/
theorem moveTowards_exact (a b : Vector2) (δ : ℝ) (hδ : 0 ≤ δ) :
    (Vector2.moveTowards a b δ = b ↔
      (Vector2.distance a b ≤ δ ∨ Vector2.distance a b = 0)) ∧
    (δ < Vector2.distance a b →
      Vector2.distance a (Vector2.moveTowards a b δ) = δ ∧
      Vector2.moveTowards a b δ =
        Vector2.lerp a b (δ / Vector2.distance a b) ∧
      0 ≤ δ / Vector2.distance a b ∧ δ / Vector2.distance a b < 1) := by
  have hS0 : 0 ≤ (b.x - a.x) ^ 2 + (b.y - a.y) ^ 2 := by positivity
  by_cases hc : Vector2.distance a b ≤ δ ∨ Vector2.distance a b = 0
  · have h1 : Vector2.moveTowards a b δ = b := by
      simp only [Vector2.moveTowards, Vector2.magnitude_subtract]
      rw [if_pos hc, Vector2.copy_eq]
    refine ⟨⟨fun _ => hc, fun _ => h1⟩, fun hlt => ?_⟩
    exfalso
    rcases hc with h | h
    · linarith
    · rw [h] at hlt; linarith
  · have hc' := hc
    push_neg at hc'
    have hlt : δ < Vector2.distance a b := hc'.1
    have hd : 0 < Vector2.distance a b :=
      lt_of_le_of_ne (Vector2.distance_nonneg a b) (Ne.symm hc'.2)
    have hd0 : Vector2.distance a b ≠ 0 := ne_of_gt hd
    have hres : Vector2.moveTowards a b δ =
        ⟨a.x + (b.x - a.x) / Vector2.distance a b * δ,
         a.y + (b.y - a.y) / Vector2.distance a b * δ⟩ := by
      simp only [Vector2.moveTowards, Vector2.magnitude_subtract]
      rw [if_neg hc]
      simp only [Vector2.normalize, Vector2.magnitude_subtract]
      rw [if_pos hd]
      simp [Vector2.subtract, Vector2.multiply, Vector2.add]
    have hS : (b.x - a.x) ^ 2 + (b.y - a.y) ^ 2 = Vector2.distance a b ^ 2 :=
      (Real.sq_sqrt hS0).symm
    have hdres : Vector2.distance a (Vector2.moveTowards a b δ) = δ := by
      rw [hres]
      apply Vector2.distance_eq_of_sq hδ
      have hexp : ((⟨a.x + (b.x - a.x) / Vector2.distance a b * δ,
            a.y + (b.y - a.y) / Vector2.distance a b * δ⟩ : Vector2).x - a.x) ^ 2 +
          ((⟨a.x + (b.x - a.x) / Vector2.distance a b * δ,
            a.y + (b.y - a.y) / Vector2.distance a b * δ⟩ : Vector2).y - a.y) ^ 2 =
          ((b.x - a.x) ^ 2 + (b.y - a.y) ^ 2) * δ ^ 2 / Vector2.distance a b ^ 2 := by
        ring
      rw [hexp, hS]
      field_simp
    have hlerp : Vector2.moveTowards a b δ =
        Vector2.lerp a b (δ / Vector2.distance a b) := by
      rw [hres, Vector2.lerp]
      have hx : a.x + (b.x - a.x) / Vector2.distance a b * δ =
          a.x + (b.x - a.x) * (δ / Vector2.distance a b) := by ring
      have hy : a.y + (b.y - a.y) / Vector2.distance a b * δ =
          a.y + (b.y - a.y) * (δ / Vector2.distance a b) := by ring
      rw [hx, hy]
    have hfrac0 : 0 ≤ δ / Vector2.distance a b := div_nonneg hδ hd.le
    have hfrac1 : δ / Vector2.distance a b < 1 := (div_lt_one hd).mpr hlt
    refine ⟨⟨fun heq => ?_, fun h => absurd h hc⟩,
      fun _ => ⟨hdres, hlerp, hfrac0, hfrac1⟩⟩
    rw [heq] at hdres
    linarith

/-- Counterexample to C10 as stated: at `a = (0,0)`, `b = (1,0)`,
`maxDistanceDelta = -1` the guard fails, yet the result does not lie at
distance `-1` from `a` (distances are nonnegative). -/
theorem moveTowards_claim_counterexample :
    ¬ (Vector2.distance ⟨0, 0⟩ ⟨1, 0⟩ ≤ -1 ∨ Vector2.distance ⟨0, 0⟩ ⟨1, 0⟩ = 0) ∧
    Vector2.distance ⟨0, 0⟩ (Vector2.moveTowards ⟨0, 0⟩ ⟨1, 0⟩ (-1)) ≠ -1 := by
  have h1 : Vector2.distance ⟨0, 0⟩ ⟨1, 0⟩ = 1 :=
    Vector2.distance_eq_of_sq (by norm_num) (by norm_num)
  refine ⟨by rw [h1]; norm_num, fun heq => ?_⟩
  have hnn := Vector2.distance_nonneg ⟨0, 0⟩ (Vector2.moveTowards ⟨0, 0⟩ ⟨1, 0⟩ (-1))
  rw [heq] at hnn
  linarith

/-- Witness for the amended C10: moving (0,0) towards (3,4) with budget 10
reaches the target. -/
theorem moveTowards_exact_witness :
    (0 : ℝ) ≤ 10 ∧ Vector2.moveTowards ⟨0, 0⟩ ⟨3, 4⟩ 10 = ⟨3, 4⟩ := by
  have h5 : Vector2.distance ⟨0, 0⟩ ⟨3, 4⟩ = 5 :=
    Vector2.distance_eq_of_sq (by norm_num) (by norm_num)
  refine ⟨by norm_num, (moveTowards_exact ⟨0, 0⟩ ⟨3, 4⟩ 10 (by norm_num)).1.mpr ?_⟩
  rw [h5]
  norm_num

/-! ## The nearest-anchor scan maps anchor positions to themselves -/

theorem anchorToVec2_canonicalize (σ : String) (m : ℝ) (e vp : Vector2) :
    ∃ c ∈ canonicalAnchors, anchorToVec2 σ m e vp = anchorToVec2 c m e vp := by
  by_cases h1 : σ = "NW"
  · exact ⟨anchorNW, by decide, by rw [h1]; rfl⟩
  by_cases h2 : σ = "N"
  · exact ⟨anchorN, by decide, by rw [h2]; rfl⟩
  by_cases h3 : σ = "NE"
  · exact ⟨anchorNE, by decide, by rw [h3]; rfl⟩
  by_cases h4 : σ = "W"
  · exact ⟨anchorW, by decide, by rw [h4]; rfl⟩
  by_cases h5 : σ = "E"
  · exact ⟨anchorE, by decide, by rw [h5]; rfl⟩
  by_cases h6 : σ = "SW"
  · exact ⟨anchorSW, by decide, by rw [h6]; rfl⟩
  by_cases h7 : σ = "S"
  · exact ⟨anchorS, by decide, by rw [h7]; rfl⟩
  by_cases h8 : σ = "SE"
  · exact ⟨anchorSE, by decide, by rw [h8]; rfl⟩
  refine ⟨anchorNW, by decide, ?_⟩
  have hdef : anchorToVec2 σ m e vp = ⟨m, m⟩ := by
    rw [anchorToVec2, if_neg h1, if_neg h2, if_neg h3, if_neg h4, if_neg h5,
      if_neg h6, if_neg h7, if_neg h8]
  rw [hdef]
  simp [anchorToVec2, anchorNW]

theorem vec2ToAnchorLoop_dist_zero (v : Vector2) (m : ℝ) (e vp : Vector2) :
    ∀ (l : List String) (minDist : ℝ) (best : String),
      (∃ c ∈ l, Vector2.distance v (anchorToVec2 c m e vp) = 0) →
      0 < minDist →
      Vector2.distance v
        (anchorToVec2 (vec2ToAnchorLoop v m e vp l minDist best) m e vp) = 0 := by
  intro l
  induction l with
  | nil =>
    intro minDist best h _
    obtain ⟨c, hc, -⟩ := h
    exact absurd hc (List.not_mem_nil c)
  | cons a rest ih =>
    intro minDist best hex hmin
    simp only [vec2ToAnchorLoop]
    by_cases hz : Vector2.distance v (anchorToVec2 a m e vp) = 0
    · rw [hz, if_pos hmin]
      rw [vec2ToAnchorLoop_stall v m e vp rest 0 a
        (fun b _ => not_lt.mpr (Vector2.distance_nonneg v _))]
      exact hz
    · obtain ⟨c, hc, hcz⟩ := hex
      have hc' : c ∈ rest := by
        rcases List.mem_cons.mp hc with rfl | h
        · exact absurd hcz hz
        · exact h
      by_cases hlt : Vector2.distance v (anchorToVec2 a m e vp) < minDist
      · rw [if_pos hlt]
        exact ih _ _ ⟨c, hc', hcz⟩
          (lt_of_le_of_ne (Vector2.distance_nonneg v _) (Ne.symm hz))
      · rw [if_neg hlt]
        exact ih _ _ ⟨c, hc', hcz⟩ hmin

/-- For every anchor string `σ`, re-resolving the anchor that
`vec2ToAnchor` assigns to the position of `σ` gives back that exact
position: the drag-end pair "snap target, then re-derive the anchor" is
position-preserving. -/
theorem vec2ToAnchor_fix (σ : String) (m : ℝ) (e vp : Vector2) :
    anchorToVec2 (vec2ToAnchor (anchorToVec2 σ m e vp) m e vp) m e vp =
      anchorToVec2 σ m e vp := by
  obtain ⟨c, hc, hpos⟩ := anchorToVec2_canonicalize σ m e vp
  have h0 : Vector2.distance (anchorToVec2 σ m e vp) (anchorToVec2 c m e vp) = 0 := by
    rw [← hpos]
    exact Vector2.distance_self _
  have hzero := vec2ToAnchorLoop_dist_zero (anchorToVec2 σ m e vp) m e vp
    canonicalAnchors NUMBER_MAX_VALUE firstCanonical ⟨c, hc, h0⟩
    (by rw [NUMBER_MAX_VALUE]; positivity)
  have h := (Vector2.distance_eq_zero_iff _ _).mp hzero
  rw [vec2ToAnchor]
  exact h.symm

theorem closestByDistanceLoop_shape (p : Vector2) (m : ℝ) (e vp : Vector2) :
    ∀ (l : List String) (minDist : ℝ) (best : Vector2),
      (∃ σ : String, best = anchorToVec2 σ m e vp) →
      ∃ σ : String,
        closestByDistanceLoop p m e vp l minDist best = anchorToVec2 σ m e vp := by
  intro l
  induction l with
  | nil => intro minDist best h; exact h
  | cons a rest ih =>
    intro minDist best h
    simp only [closestByDistanceLoop]
    by_cases hlt : Vector2.distance p (anchorToVec2 a m e vp) < minDist
    · rw [if_pos hlt]; exact ih _ _ ⟨a, rfl⟩
    · rw [if_neg hlt]; exact ih _ _ h

theorem closestByAngleLoop_shape (p dir : Vector2) (m : ℝ) (e vp : Vector2) :
    ∀ (l : List String) (minAngle : ℝ) (best : Vector2),
      (∃ σ : String, best = anchorToVec2 σ m e vp) →
      ∃ σ : String,
        closestByAngleLoop p dir m e vp l minAngle best = anchorToVec2 σ m e vp := by
  intro l
  induction l with
  | nil => intro minAngle best h; exact h
  | cons a rest ih =>
    intro minAngle best h
    simp only [closestByAngleLoop]
    by_cases htie : |dir.angleTo (Vector2.subtract (anchorToVec2 a m e vp) p) - minAngle| < 0.1
    · rw [if_pos htie]
      by_cases hd : Vector2.distance p (anchorToVec2 a m e vp) < Vector2.distance p best
      · rw [if_pos hd]; exact ih _ _ ⟨a, rfl⟩
      · rw [if_neg hd]; exact ih _ _ h
    · rw [if_neg htie]
      by_cases hang : dir.angleTo (Vector2.subtract (anchorToVec2 a m e vp) p) < minAngle
      · rw [if_pos hang]; exact ih _ _ ⟨a, rfl⟩
      · rw [if_neg hang]; exact ih _ _ h

theorem closestAnchorVec2ByDistance_shape (p : Vector2) (l : List String)
    (m : ℝ) (e vp : Vector2) :
    ∃ σ : String, closestAnchorVec2ByDistance p l m e vp = anchorToVec2 σ m e vp := by
  rw [closestAnchorVec2ByDistance]
  exact closestByDistanceLoop_shape p m e vp l _ _ ⟨headAnchor l, rfl⟩

theorem closestAnchorVec2ByAngle_shape (p dir : Vector2) (l : List String)
    (m : ℝ) (e vp : Vector2) :
    ∃ σ : String, closestAnchorVec2ByAngle p dir l m e vp = anchorToVec2 σ m e vp := by
  rw [closestAnchorVec2ByAngle]
  exact closestByAngleLoop_shape p dir m e vp l _ _ ⟨headAnchor l, rfl⟩

/-! ## Angle computations -/

theorem Vector2.angleTo_le_pi (v w : Vector2) : Vector2.angleTo v w ≤ Real.pi := by
  simp only [Vector2.angleTo]
  split_ifs
  · exact Real.pi_nonneg
  · exact Real.arccos_le_pi _

/-- For a unit direction along the x axis and a vector in the closed upper
right quadrant with a known (Pythagorean) norm, `angleTo` is the arcsine of
the normalized y component. -/
theorem Vector2.angleTo_unitX (x y r : ℝ) (hx : 0 ≤ x) (hy : 0 ≤ y) (hr : 0 < r)
    (hpyth : x * x + y * y = r * r) :
    Vector2.angleTo ⟨1, 0⟩ ⟨x, y⟩ = Real.arcsin (y / r) := by
  have hden : Real.sqrt
      (Vector2.sqrMagnitude ⟨1, 0⟩ * Vector2.sqrMagnitude ⟨x, y⟩) = r := by
    have h1 : Vector2.sqrMagnitude ⟨1, 0⟩ * Vector2.sqrMagnitude ⟨x, y⟩ = r ^ 2 := by
      simp only [Vector2.sqrMagnitude]
      nlinarith [hpyth]
    rw [h1, Real.sqrt_sq hr.le]
  have hdot : Vector2.dot ⟨1, 0⟩ ⟨x, y⟩ = x := by
    simp [Vector2.dot]
  simp only [Vector2.angleTo]
  rw [hden, if_neg (ne_of_gt hr), hdot]
  have hxr1 : x / r ≤ 1 := by
    rw [div_le_one hr]
    nlinarith [mul_self_nonneg y]
  have hxr0 : 0 ≤ x / r := div_nonneg hx hr.le
  rw [max_eq_left (by linarith : (-1 : ℝ) ≤ x / r), min_eq_left hxr1]
  have hsin : Real.sin (Real.arccos (x / r)) = y / r := by
    rw [Real.sin_arccos]
    have h1 : 1 - (x / r) ^ 2 = (y / r) ^ 2 := by
      field_simp
      nlinarith [hpyth]
    rw [h1, Real.sqrt_sq (div_nonneg hy hr.le)]
  have harange1 : 0 ≤ Real.arccos (x / r) := Real.arccos_nonneg _
  have harange2 : Real.arccos (x / r) ≤ Real.pi / 2 :=
    Real.arccos_le_pi_div_two.mpr hxr0
  have := @Real.arcsin_sin (Real.arccos (x / r))
    (by linarith [Real.pi_div_two_pos]) harange2
  rw [← this, hsin]

/-- If `s ≤ c - c³/4` with `0 < c ≤ 1` then `arcsin s < c` (via the cubic
lower bound on `sin`). -/
theorem arcsin_lt_of (s c : ℝ) (h0 : 0 ≤ s) (hc0 : 0 < c) (hc1 : c ≤ 1)
    (h : s ≤ c - c ^ 3 / 4) : Real.arcsin s < c := by
  have hc2 : c ≤ Real.pi / 2 := by
    have := Real.pi_gt_three
    linarith
  have hneg : -(Real.pi / 2) < c := by
    have := Real.pi_div_two_pos
    linarith
  have hs : s < Real.sin c := lt_of_le_of_lt h (Real.sin_gt_sub_cube hc0 hc1)
  exact (Real.arcsin_lt_iff_lt_sin' ⟨hneg, hc2⟩).mpr hs

/-- For `0 < s ≤ 1`, `s < arcsin s` (via `sin x < x`). -/
theorem lt_arcsin_of (s : ℝ) (h0 : 0 < s) (h1 : s ≤ 1) : s < Real.arcsin s := by
  have hpos : 0 < Real.arcsin s := Real.arcsin_pos.mpr h0
  have hsin := Real.sin_lt hpos
  rwa [Real.sin_arcsin (by linarith) h1] at hsin

/-! ## Claim C1: the at-rest invariant -/

/-- During a resizer drag `resizerMove` rewrites only the element size: the
target and rendered positions, the anchor, the drag flag, the frame flag
and the viewport all pass through untouched (the handler's `setWindowPos`
writes only the rendered CSS position). -/
theorem resizerMove_fields (cfg : DragConfig) (s : MState) (mouse : Vector2) :
    (resizerMove cfg s mouse).targetPos = s.targetPos ∧
    (resizerMove cfg s mouse).currentPos = s.currentPos ∧
    (resizerMove cfg s mouse).currentAnchor = s.currentAnchor ∧
    (resizerMove cfg s mouse).isDragging = s.isDragging ∧
    (resizerMove cfg s mouse).framePending = s.framePending ∧
    (resizerMove cfg s mouse).vp = s.vp := by
  rw [resizerMove]
  split_ifs <;> exact ⟨rfl, rfl, rfl, rfl, rfl, rfl⟩

/-- Amended claim C1: in every reachable state with `isDragging` false and
no animation frame pending, `targetPos` equals the position resolved by
`anchorToVec2` for `currentAnchor` under the current viewport and the
element size read when `targetPos` was last re-anchored (a later
`resizerMove` can shrink or grow the element without re-deriving
`targetPos`, so that size may differ from the state's current one), and
`currentPos` is within the loop's one-unit settle epsilon of that position.
(Exact equality of `currentPos` fails: the easing loop stops one lerp step
after entering the unit ball, see the counterexample.) -/
theorem rest_within_epsilon_of_anchor (cfg : DragConfig) (s : MState)
    (hr : Reachable cfg s) (hnd : ¬ s.isDragging) (hnf : ¬ s.framePending) :
    ∃ e : Vector2,
      s.targetPos = anchorToVec2 s.currentAnchor cfg.margin e s.vp ∧
      Vector2.distance s.currentPos
        (anchorToVec2 s.currentAnchor cfg.margin e s.vp) ≤ 1 := by
  have J : ∀ t : MState, Reachable cfg t →
      (¬ t.isDragging →
        ∃ e : Vector2,
          t.targetPos = anchorToVec2 t.currentAnchor cfg.margin e t.vp) ∧
      (¬ t.framePending →
        ¬ t.isDragging ∧ Vector2.distance t.currentPos t.targetPos ≤ 1) := by
    intro t ht
    have ht' : Relation.ReflTransGen (Step cfg) (initState cfg) t := ht
    induction ht' with
    | refl =>
      refine ⟨fun _ => ⟨cfg.elem0, rfl⟩, fun _ => ⟨fun h => h, ?_⟩⟩
      rw [show (initState cfg).currentPos = (initState cfg).targetPos from rfl]
      rw [Vector2.distance_self]
      norm_num
    | @tail b c hab hbc ih =>
      have ihb := ih hab
      cases hbc with
      | dragStart mouse =>
        by_cases hres : b.isResizing
        · have hid : ProjectTv.dragStart cfg b mouse = b := by
            rw [ProjectTv.dragStart, if_pos hres]
          rw [hid]
          exact ihb
        · have hst : ProjectTv.dragStart cfg b mouse =
              { b with
                isDragging := True
                lastMove := []
                lastMouse := mouse
                targetPos := anchorToVec2 b.currentAnchor cfg.margin b.elem b.vp
                currentPos := anchorToVec2 b.currentAnchor cfg.margin b.elem b.vp
                framePending := True } := by
            rw [ProjectTv.dragStart, if_neg hres]
          rw [hst]
          exact ⟨fun h => absurd trivial h, fun h => absurd trivial h⟩
      | dragMove mouse hdrag =>
        refine ⟨fun h => ?_, fun h => ?_⟩
        · exact absurd hdrag h
        · have h' : ¬ b.framePending := h
          exact absurd hdrag (ihb.2 h').1
      | dragEnd hdrag =>
        by_cases hcnd : b.lastMove ≠ [] ∧
            (moveAverage b.lastMove).magnitude > ANCHOR_SNAP_SPEED_THRESHOLD
        · obtain ⟨σ, hσ⟩ := closestAnchorVec2ByAngle_shape b.currentPos
            (moveAverage b.lastMove).normalize cfg.anchorsArray cfg.margin b.elem b.vp
          have hst : ProjectTv.dragEnd cfg b =
              { b with
                isDragging := False
                targetPos := closestAnchorVec2ByAngle b.currentPos
                  (moveAverage b.lastMove).normalize cfg.anchorsArray
                  cfg.margin b.elem b.vp
                currentAnchor := vec2ToAnchor
                  (closestAnchorVec2ByAngle b.currentPos
                    (moveAverage b.lastMove).normalize cfg.anchorsArray
                    cfg.margin b.elem b.vp) cfg.margin b.elem b.vp
                cursor := setResizerCursor (vec2ToAnchor
                  (closestAnchorVec2ByAngle b.currentPos
                    (moveAverage b.lastMove).normalize cfg.anchorsArray
                    cfg.margin b.elem b.vp) cfg.margin b.elem b.vp) b.cursor
                framePending := True } := by
            rw [ProjectTv.dragEnd, if_pos hcnd]
          rw [hst]
          refine ⟨fun _ => ⟨b.elem, ?_⟩, fun h => absurd trivial h⟩
          show closestAnchorVec2ByAngle b.currentPos (moveAverage b.lastMove).normalize
              cfg.anchorsArray cfg.margin b.elem b.vp =
            anchorToVec2 (vec2ToAnchor (closestAnchorVec2ByAngle b.currentPos
              (moveAverage b.lastMove).normalize cfg.anchorsArray
              cfg.margin b.elem b.vp) cfg.margin b.elem b.vp) cfg.margin b.elem b.vp
          rw [hσ]
          exact (vec2ToAnchor_fix σ cfg.margin b.elem b.vp).symm
        · obtain ⟨σ, hσ⟩ := closestAnchorVec2ByDistance_shape b.targetPos
            cfg.anchorsArray cfg.margin b.elem b.vp
          have hst : ProjectTv.dragEnd cfg b =
              { b with
                isDragging := False
                targetPos := closestAnchorVec2ByDistance b.targetPos
                  cfg.anchorsArray cfg.margin b.elem b.vp
                currentAnchor := vec2ToAnchor
                  (closestAnchorVec2ByDistance b.targetPos cfg.anchorsArray
                    cfg.margin b.elem b.vp) cfg.margin b.elem b.vp
                cursor := setResizerCursor (vec2ToAnchor
                  (closestAnchorVec2ByDistance b.targetPos cfg.anchorsArray
                    cfg.margin b.elem b.vp) cfg.margin b.elem b.vp) b.cursor
                framePending := True } := by
            rw [ProjectTv.dragEnd, if_neg hcnd]
          rw [hst]
          refine ⟨fun _ => ⟨b.elem, ?_⟩, fun h => absurd trivial h⟩
          show closestAnchorVec2ByDistance b.targetPos cfg.anchorsArray
              cfg.margin b.elem b.vp =
            anchorToVec2 (vec2ToAnchor (closestAnchorVec2ByDistance b.targetPos
              cfg.anchorsArray cfg.margin b.elem b.vp) cfg.margin b.elem b.vp)
              cfg.margin b.elem b.vp
          rw [hσ]
          exact (vec2ToAnchor_fix σ cfg.margin b.elem b.vp).symm
      | frame hpend =>
        refine ⟨fun h => ?_, fun h => ?_⟩
        · have h' : ¬ b.isDragging := h
          exact ihb.1 h'
        · simp only [ProjectTv.updatePosition] at h
          obtain ⟨h1, h2⟩ := not_or.mp h
          exact ⟨h2, not_lt.mp h1⟩
      | browserResize vp' =>
        exact ⟨fun _ => ⟨b.elem, rfl⟩, fun h => absurd trivial h⟩
      | resizerStart mouse =>
        exact ihb
      | resizerMove mouse =>
        obtain ⟨h1, h2, h3, h4, h5, h6⟩ := resizerMove_fields cfg b mouse
        rw [h1, h2, h3, h4, h5, h6]
        exact ihb
      | resizerEnd =>
        exact ihb
  obtain ⟨ha, hb⟩ := J s hr
  obtain ⟨-, hdist⟩ := hb hnf
  obtain ⟨e, htp⟩ := ha hnd
  refine ⟨e, htp, ?_⟩
  rw [← htp]
  exact hdist

/-- Witness for the amended C1 at the freshly mounted state of `c1Cfg`. -/
theorem rest_within_epsilon_of_anchor_witness :
    Reachable c1Cfg (initState c1Cfg) ∧
    ¬ (initState c1Cfg).isDragging ∧ ¬ (initState c1Cfg).framePending ∧
    ∃ e : Vector2,
      (initState c1Cfg).targetPos =
        anchorToVec2 (initState c1Cfg).currentAnchor c1Cfg.margin e
          (initState c1Cfg).vp ∧
      Vector2.distance (initState c1Cfg).currentPos
        (anchorToVec2 (initState c1Cfg).currentAnchor c1Cfg.margin e
          (initState c1Cfg).vp) ≤ 1 :=
  ⟨Relation.ReflTransGen.refl, fun h => h, fun h => h,
    rest_within_epsilon_of_anchor c1Cfg (initState c1Cfg)
      Relation.ReflTransGen.refl (fun h => h) (fun h => h)⟩

theorem c1_step1 : ProjectTv.dragStart c1Cfg (initState c1Cfg) ⟨0, 0⟩ = c1S1 := by
  rw [ProjectTv.dragStart, if_neg (fun h => h : ¬ (initState c1Cfg).isResizing)]
  apply MState.ext <;>
    norm_num [initState, c1Cfg, c1S1, headAnchor, anchorToVec2, anchorNW,
      Vector2.ZERO, setResizerCursor, unsetCursor, cursorNWResize]

theorem c1_step2 : ProjectTv.dragMove c1S1 ⟨2, 0⟩ = c1S2 := by
  apply MState.ext <;>
    norm_num [ProjectTv.dragMove, c1S1, c1S2, Vector2.subtract, Vector2.add,
      MOVE_AVERAGE_COUNT]

theorem c1_step3 : ProjectTv.updatePosition c1S2 = c1S3 := by
  apply MState.ext <;>
    norm_num [ProjectTv.updatePosition, c1S2, c1S3, Vector2.lerp, DRAG_LERP_FACTOR]

theorem c1_moveAverage : moveAverage c1S3.lastMove = ⟨2, 0⟩ := by
  norm_num [moveAverage, c1S3, Vector2.add, Vector2.multiply, Vector2.ZERO]

theorem c1_notFast :
    ¬ (c1S3.lastMove ≠ [] ∧
      (moveAverage c1S3.lastMove).magnitude > ANCHOR_SNAP_SPEED_THRESHOLD) := by
  rintro ⟨-, hgt⟩
  rw [c1_moveAverage,
    @Vector2.magnitude_eq_of_sq ⟨2, 0⟩ 2 (by norm_num) (by norm_num),
    ANCHOR_SNAP_SPEED_THRESHOLD] at hgt
  exact lt_irrefl _ hgt

theorem c1_closestDist :
    closestAnchorVec2ByDistance ⟨17, 15⟩ ["NW", "NE"] 15 ⟨100, 100⟩ ⟨1000, 800⟩ =
      ⟨15, 15⟩ := by
  have hd1 : Vector2.distance ⟨17, 15⟩ (⟨15, 15⟩ : Vector2) = 2 := by
    rw [@Vector2.distance_eq_abs_x ⟨17, 15⟩ ⟨15, 15⟩ rfl]
    norm_num
  have hd2 : Vector2.distance ⟨17, 15⟩ (⟨885, 15⟩ : Vector2) = 868 := by
    rw [@Vector2.distance_eq_abs_x ⟨17, 15⟩ ⟨885, 15⟩ rfl]
    norm_num
  simp only [closestAnchorVec2ByDistance, closestByDistanceLoop, headAnchor]
  simp [anchorToVec2]
  norm_num [hd1, hd2]

theorem c1_vec2ToAnchor :
    vec2ToAnchor ⟨15, 15⟩ 15 ⟨100, 100⟩ ⟨1000, 800⟩ = anchorNW := by
  have hNW : anchorToVec2 anchorNW 15 ⟨100, 100⟩ ⟨1000, 800⟩ = ⟨15, 15⟩ := by
    norm_num [anchorToVec2, anchorNW]
  rw [vec2ToAnchor]
  apply vec2ToAnchorLoop_eq_of_zero ⟨15, 15⟩ 15 ⟨100, 100⟩ ⟨1000, 800⟩ anchorNW
    canonicalAnchors NUMBER_MAX_VALUE firstCanonical (by decide)
  · rw [hNW]
    exact Vector2.distance_self _
  · intro bb hb hba
    have hne := anchorToVec2_injOn 15 ⟨100, 100⟩ ⟨1000, 800⟩ (by norm_num)
      (by norm_num) anchorNW (by decide) bb hb (fun hh => hba hh.symm)
    rw [hNW] at hne
    exact Vector2.distance_pos_of_ne hne
  · rw [NUMBER_MAX_VALUE]
    positivity

theorem c1_step4 : ProjectTv.dragEnd c1Cfg c1S3 = c1S4 := by
  rw [ProjectTv.dragEnd, if_neg c1_notFast]
  apply MState.ext <;>
    simp [c1S3, c1S4, c1Cfg, c1_closestDist, c1_vec2ToAnchor, setResizerCursor,
      anchorNW, cursorNWResize]

theorem c1_step5 : ProjectTv.updatePosition c1S4 = c1S5 := by
  have hdist : Vector2.distance (⟨19239 / 1250, 15⟩ : Vector2) (⟨15, 15⟩ : Vector2) =
      489 / 1250 := by
    rw [@Vector2.distance_eq_abs_x ⟨19239 / 1250, 15⟩ ⟨15, 15⟩ rfl]
    norm_num
  apply MState.ext <;>
    norm_num [ProjectTv.updatePosition, c1S4, c1S5, Vector2.lerp,
      SNAP_LERP_FACTOR, hdist]

theorem c1_reachable : Reachable c1Cfg c1S5 := by
  have h1 : Step c1Cfg (initState c1Cfg) c1S1 := by
    rw [← c1_step1]; exact Step.dragStart (initState c1Cfg) ⟨0, 0⟩
  have h2 : Step c1Cfg c1S1 c1S2 := by
    rw [← c1_step2]; exact Step.dragMove c1S1 ⟨2, 0⟩ trivial
  have h3 : Step c1Cfg c1S2 c1S3 := by
    rw [← c1_step3]; exact Step.frame c1S2 trivial
  have h4 : Step c1Cfg c1S3 c1S4 := by
    rw [← c1_step4]; exact Step.dragEnd c1S3 trivial
  have h5 : Step c1Cfg c1S4 c1S5 := by
    rw [← c1_step5]; exact Step.frame c1S4 trivial
  exact Relation.ReflTransGen.tail (Relation.ReflTransGen.tail
    (Relation.ReflTransGen.tail (Relation.ReflTransGen.tail
      (Relation.ReflTransGen.tail Relation.ReflTransGen.refl h1) h2) h3) h4) h5

/-- Counterexample to C1 as stated: a reachable resting state (no drag, no
pending frame) whose `currentPos` is 0.3912 units away from the anchor
position — the loop stops as soon as it comes within one unit, so equality
fails. -/
theorem rest_not_at_anchor_counterexample :
    Reachable c1Cfg c1S5 ∧ ¬ c1S5.isDragging ∧ ¬ c1S5.framePending ∧
    c1S5.currentPos ≠
      anchorToVec2 c1S5.currentAnchor c1Cfg.margin c1S5.elem c1S5.vp := by
  refine ⟨c1_reachable, fun h => h, fun h => h, fun heq => ?_⟩
  have hpos : anchorToVec2 c1S5.currentAnchor c1Cfg.margin c1S5.elem c1S5.vp =
      ⟨15, 15⟩ := by
    norm_num [c1S5, c1Cfg, anchorNW, anchorToVec2]
  rw [hpos] at heq
  have hx := congrArg Vector2.x heq
  norm_num [c1S5] at hx

/-! ## Claim C3: angle-based anchor selection -/

theorem closestByAngleLoop_post (p dir : Vector2) (m : ℝ) (e vp : Vector2)
    (pw : Vector2) :
    ∀ l : List String,
      (∀ a ∈ l, anchorToVec2 a m e vp = pw ∨
        dir.angleTo (Vector2.subtract pw p) + 0.1 ≤
          dir.angleTo (Vector2.subtract (anchorToVec2 a m e vp) p)) →
      closestByAngleLoop p dir m e vp l
        (dir.angleTo (Vector2.subtract pw p)) pw = pw := by
  intro l
  induction l with
  | nil => intro _; rfl
  | cons a rest ih =>
    intro hl
    simp only [closestByAngleLoop]
    rcases hl a (List.mem_cons_self a rest) with heq | hge
    · have htie : |dir.angleTo (Vector2.subtract (anchorToVec2 a m e vp) p) -
          dir.angleTo (Vector2.subtract pw p)| < 0.1 := by
        rw [heq, sub_self, abs_zero]
        norm_num
      rw [if_pos htie]
      have hnd : ¬ Vector2.distance p (anchorToVec2 a m e vp) <
          Vector2.distance p pw := by
        rw [heq]
        exact lt_irrefl _
      rw [if_neg hnd]
      exact ih (fun b hb => hl b (List.mem_cons_of_mem a hb))
    · have htie : ¬ |dir.angleTo (Vector2.subtract (anchorToVec2 a m e vp) p) -
          dir.angleTo (Vector2.subtract pw p)| < 0.1 := by
        intro habs
        have h1 := (abs_lt.mp habs).2
        linarith
      rw [if_neg htie]
      have hnlt : ¬ dir.angleTo (Vector2.subtract (anchorToVec2 a m e vp) p) <
          dir.angleTo (Vector2.subtract pw p) := not_lt.mpr (by linarith)
      rw [if_neg hnlt]
      exact ih (fun b hb => hl b (List.mem_cons_of_mem a hb))

theorem closestByAngleLoop_pre (p dir : Vector2) (m : ℝ) (e vp : Vector2)
    (w : String) :
    ∀ (l : List String) (minAngle : ℝ) (best : Vector2),
      w ∈ l →
      (∀ a ∈ l, anchorToVec2 a m e vp = anchorToVec2 w m e vp ∨
        dir.angleTo (Vector2.subtract (anchorToVec2 w m e vp) p) + 0.1 ≤
          dir.angleTo (Vector2.subtract (anchorToVec2 a m e vp) p)) →
      dir.angleTo (Vector2.subtract (anchorToVec2 w m e vp) p) + 0.1 ≤ minAngle →
      closestByAngleLoop p dir m e vp l minAngle best = anchorToVec2 w m e vp := by
  intro l
  induction l with
  | nil => intro minAngle best h; exact absurd h (List.not_mem_nil w)
  | cons a rest ih =>
    intro minAngle best hw hl hmin
    simp only [closestByAngleLoop]
    by_cases heq : anchorToVec2 a m e vp = anchorToVec2 w m e vp
    · have htie : ¬ |dir.angleTo (Vector2.subtract (anchorToVec2 a m e vp) p) -
          minAngle| < 0.1 := by
        rw [heq]
        intro habs
        have h1 := (abs_lt.mp habs).1
        linarith
      rw [if_neg htie]
      have hlt : dir.angleTo (Vector2.subtract (anchorToVec2 a m e vp) p) <
          minAngle := by
        rw [heq]
        linarith
      rw [if_pos hlt]
      rw [heq]
      exact closestByAngleLoop_post p dir m e vp (anchorToVec2 w m e vp) rest
        (fun b hb => hl b (List.mem_cons_of_mem a hb))
    · have hge : dir.angleTo (Vector2.subtract (anchorToVec2 w m e vp) p) + 0.1 ≤
          dir.angleTo (Vector2.subtract (anchorToVec2 a m e vp) p) := by
        rcases hl a (List.mem_cons_self a rest) with h | h
        · exact absurd h heq
        · exact h
      have hw' : w ∈ rest := by
        rcases List.mem_cons.mp hw with rfl | h
        · exact absurd rfl heq
        · exact h
      have hlres : ∀ b ∈ rest,
          anchorToVec2 b m e vp = anchorToVec2 w m e vp ∨
          dir.angleTo (Vector2.subtract (anchorToVec2 w m e vp) p) + 0.1 ≤
            dir.angleTo (Vector2.subtract (anchorToVec2 b m e vp) p) :=
        fun b hb => hl b (List.mem_cons_of_mem a hb)
      by_cases htie : |dir.angleTo (Vector2.subtract (anchorToVec2 a m e vp) p) -
          minAngle| < 0.1
      · rw [if_pos htie]
        exact ih _ _ hw' hlres hmin
      · rw [if_neg htie]
        by_cases hlt : dir.angleTo (Vector2.subtract (anchorToVec2 a m e vp) p) <
            minAngle
        · rw [if_pos hlt]
          exact ih _ _ hw' hlres (by linarith)
        · rw [if_neg hlt]
          exact ih _ _ hw' hlres hmin

/-- Amended claim C3: `closestAnchorVec2ByAngle` resolves its scan
sequentially against the running minimum, so the global tie-break rule of
the claim can fail (see the counterexample); what does hold is that
whenever one candidate's angle is at least 0.1 rad below the angle of every
candidate at a different position, that candidate's position is returned. -/
theorem closestByAngle_clear_winner (position direction : Vector2)
    (anchorsArray : List String) (margin : ℝ) (elem vp : Vector2) (w : String)
    (hw : w ∈ anchorsArray)
    (hsep : ∀ a ∈ anchorsArray,
      anchorToVec2 a margin elem vp = anchorToVec2 w margin elem vp ∨
      direction.angleTo
          (Vector2.subtract (anchorToVec2 w margin elem vp) position) + 0.1 ≤
        direction.angleTo
          (Vector2.subtract (anchorToVec2 a margin elem vp) position)) :
    closestAnchorVec2ByAngle position direction anchorsArray margin elem vp =
      anchorToVec2 w margin elem vp := by
  rw [closestAnchorVec2ByAngle]
  apply closestByAngleLoop_pre position direction margin elem vp w anchorsArray
    NUMBER_MAX_VALUE _ hw hsep
  have hle := Vector2.angleTo_le_pi direction
    (Vector2.subtract (anchorToVec2 w margin elem vp) position)
  have hpi := Real.pi_le_four
  have hM : (4.1 : ℝ) ≤ NUMBER_MAX_VALUE := by
    rw [NUMBER_MAX_VALUE]
    norm_num
  linarith

/-- Witness for the amended C3: with candidates NW and SW, position
(14, 15) and direction (1, 0), the NW anchor points exactly along the drag
direction (angle 0) while SW sits at `arcsin (4/5) > 0.1`, so NW's position
is returned. -/
theorem closestByAngle_clear_winner_witness :
    anchorNW ∈ c3wList ∧
    (∀ a ∈ c3wList,
      anchorToVec2 a c3wMargin c3wElem c3wVp =
        anchorToVec2 anchorNW c3wMargin c3wElem c3wVp ∨
      Vector2.angleTo ⟨1, 0⟩ (Vector2.subtract
          (anchorToVec2 anchorNW c3wMargin c3wElem c3wVp) c3wP) + 0.1 ≤
        Vector2.angleTo ⟨1, 0⟩ (Vector2.subtract
          (anchorToVec2 a c3wMargin c3wElem c3wVp) c3wP)) ∧
    closestAnchorVec2ByAngle c3wP ⟨1, 0⟩ c3wList c3wMargin c3wElem c3wVp =
      anchorToVec2 anchorNW c3wMargin c3wElem c3wVp := by
  have hNWpos : anchorToVec2 anchorNW c3wMargin c3wElem c3wVp = ⟨15, 15⟩ := by
    simp [anchorToVec2, anchorNW, c3wMargin]
  have hSWpos : anchorToVec2 anchorSW c3wMargin c3wElem c3wVp = ⟨15, 49 / 3⟩ := by
    simp [anchorToVec2, anchorSW, c3wMargin, c3wElem, c3wVp]
    norm_num
  have hangNW : Vector2.angleTo ⟨1, 0⟩ (Vector2.subtract
      (anchorToVec2 anchorNW c3wMargin c3wElem c3wVp) c3wP) = 0 := by
    rw [hNWpos]
    have hsub : Vector2.subtract ⟨15, 15⟩ c3wP = ⟨1, 0⟩ := by
      norm_num [Vector2.subtract, c3wP]
    rw [hsub, Vector2.angleTo_unitX 1 0 1 (by norm_num) (by norm_num)
      (by norm_num) (by norm_num)]
    norm_num
  have hangSW : Vector2.angleTo ⟨1, 0⟩ (Vector2.subtract
      (anchorToVec2 anchorSW c3wMargin c3wElem c3wVp) c3wP) =
      Real.arcsin (4 / 5) := by
    rw [hSWpos]
    have hsub : Vector2.subtract ⟨15, 49 / 3⟩ c3wP = ⟨1, 4 / 3⟩ := by
      norm_num [Vector2.subtract, c3wP]
    rw [hsub, Vector2.angleTo_unitX 1 (4 / 3) (5 / 3) (by norm_num) (by norm_num)
      (by norm_num) (by norm_num)]
    norm_num
  have hsep : ∀ a ∈ c3wList,
      anchorToVec2 a c3wMargin c3wElem c3wVp =
        anchorToVec2 anchorNW c3wMargin c3wElem c3wVp ∨
      Vector2.angleTo ⟨1, 0⟩ (Vector2.subtract
          (anchorToVec2 anchorNW c3wMargin c3wElem c3wVp) c3wP) + 0.1 ≤
        Vector2.angleTo ⟨1, 0⟩ (Vector2.subtract
          (anchorToVec2 a c3wMargin c3wElem c3wVp) c3wP) := by
    intro a ha
    simp only [c3wList, List.mem_cons, List.not_mem_nil, or_false] at ha
    rcases ha with rfl | rfl
    · exact Or.inl rfl
    · refine Or.inr ?_
      show Vector2.angleTo ⟨1, 0⟩ (Vector2.subtract
          (anchorToVec2 anchorNW c3wMargin c3wElem c3wVp) c3wP) + 0.1 ≤
        Vector2.angleTo ⟨1, 0⟩ (Vector2.subtract
          (anchorToVec2 anchorSW c3wMargin c3wElem c3wVp) c3wP)
      rw [hangNW, hangSW]
      have := lt_arcsin_of (4 / 5) (by norm_num) (by norm_num)
      linarith
  exact ⟨by decide, hsep,
    closestByAngle_clear_winner c3wP ⟨1, 0⟩ c3wList c3wMargin c3wElem c3wVp
      anchorNW (by decide) hsep⟩

/-- Counterexample to C3 as stated: with candidates NW, W, N (angles
`arcsin 32/257 ≈ 0.1245`, `arcsin 36/325 ≈ 0.1108`, `arcsin 200/10001 ≈
0.0200` to the drag direction), the scan ties NW with W (diff < 0.1,
W closer, `minAngle` kept at NW's angle) and then replaces W by N
(diff to the *stale* minimum ≥ 0.1) — yet W's angle is within 0.1 rad of
N's and W is strictly closer to the position, so the claimed
distance-preference on near-ties is violated by the returned anchor. -/
theorem closestByAngle_claim_counterexample :
    anchorW ∈ c3List ∧
    closestAnchorVec2ByAngle c3P c3Dir c3List c3Margin c3Elem c3Vp =
      anchorToVec2 anchorN c3Margin c3Elem c3Vp ∧
    |c3Dir.angleTo (Vector2.subtract (anchorToVec2 anchorW c3Margin c3Elem c3Vp) c3P) -
      c3Dir.angleTo (Vector2.subtract (anchorToVec2 anchorN c3Margin c3Elem c3Vp) c3P)|
      < 0.1 ∧
    Vector2.distance c3P (anchorToVec2 anchorW c3Margin c3Elem c3Vp) <
      Vector2.distance c3P (anchorToVec2 anchorN c3Margin c3Elem c3Vp) := by
  have hNW : anchorToVec2 anchorNW c3Margin c3Elem c3Vp = ⟨2059125, 2059125⟩ := by
    simp [anchorToVec2, anchorNW, c3Margin]
  have hW : anchorToVec2 anchorW c3Margin c3Elem c3Vp = ⟨2059125, 2030225⟩ := by
    simp [anchorToVec2, anchorW, c3Margin, c3Elem, c3Vp]
    norm_num
  have hN : anchorToVec2 anchorN c3Margin c3Elem c3Vp = ⟨12918708, 2059125⟩ := by
    simp [anchorToVec2, anchorN, c3Margin, c3Elem, c3Vp]
    norm_num
  have hangb : c3Dir.angleTo (Vector2.subtract
      (anchorToVec2 anchorNW c3Margin c3Elem c3Vp) c3P) =
      Real.arcsin (32 / 257) := by
    rw [hNW]
    have hsub : Vector2.subtract ⟨2059125, 2059125⟩ c3P = ⟨2059125, 258400⟩ := by
      norm_num [Vector2.subtract, c3P]
    rw [hsub, show c3Dir = (⟨1, 0⟩ : Vector2) from rfl,
      Vector2.angleTo_unitX 2059125 258400 2075275 (by norm_num) (by norm_num)
        (by norm_num) (by norm_num)]
    norm_num
  have hanga : c3Dir.angleTo (Vector2.subtract
      (anchorToVec2 anchorW c3Margin c3Elem c3Vp) c3P) =
      Real.arcsin (36 / 325) := by
    rw [hW]
    have hsub : Vector2.subtract ⟨2059125, 2030225⟩ c3P = ⟨2059125, 229500⟩ := by
      norm_num [Vector2.subtract, c3P]
    rw [hsub, show c3Dir = (⟨1, 0⟩ : Vector2) from rfl,
      Vector2.angleTo_unitX 2059125 229500 2071875 (by norm_num) (by norm_num)
        (by norm_num) (by norm_num)]
    norm_num
  have hangc : c3Dir.angleTo (Vector2.subtract
      (anchorToVec2 anchorN c3Margin c3Elem c3Vp) c3P) =
      Real.arcsin (200 / 10001) := by
    rw [hN]
    have hsub : Vector2.subtract ⟨12918708, 2059125⟩ c3P = ⟨12918708, 258400⟩ := by
      norm_num [Vector2.subtract, c3P]
    rw [hsub, show c3Dir = (⟨1, 0⟩ : Vector2) from rfl,
      Vector2.angleTo_unitX 12918708 258400 12921292 (by norm_num) (by norm_num)
        (by norm_num) (by norm_num)]
    norm_num
  have hb_lb : (32 : ℝ) / 257 < Real.arcsin (32 / 257) :=
    lt_arcsin_of _ (by norm_num) (by norm_num)
  have hb_ub : Real.arcsin (32 / 257) < 0.12505 :=
    arcsin_lt_of _ _ (by norm_num) (by norm_num) (by norm_num) (by norm_num)
  have ha_lb : (36 : ℝ) / 325 < Real.arcsin (36 / 325) :=
    lt_arcsin_of _ (by norm_num) (by norm_num)
  have ha_ub : Real.arcsin (36 / 325) < 0.1112 :=
    arcsin_lt_of _ _ (by norm_num) (by norm_num) (by norm_num) (by norm_num)
  have hc_lb : (200 : ℝ) / 10001 < Real.arcsin (200 / 10001) :=
    lt_arcsin_of _ (by norm_num) (by norm_num)
  have hc_ub : Real.arcsin (200 / 10001) < 0.02001 :=
    arcsin_lt_of _ _ (by norm_num) (by norm_num) (by norm_num) (by norm_num)
  have hdNW : Vector2.distance c3P (⟨2059125, 2059125⟩ : Vector2) = 2075275 :=
    Vector2.distance_eq_of_sq (by norm_num) (by norm_num [c3P])
  have hdW : Vector2.distance c3P (⟨2059125, 2030225⟩ : Vector2) = 2071875 :=
    Vector2.distance_eq_of_sq (by norm_num) (by norm_num [c3P])
  have hdN : Vector2.distance c3P (⟨12918708, 2059125⟩ : Vector2) = 12921292 :=
    Vector2.distance_eq_of_sq (by norm_num) (by norm_num [c3P])
  have hM : (1 : ℝ) ≤ NUMBER_MAX_VALUE := by
    rw [NUMBER_MAX_VALUE]
    norm_num
  refine ⟨by decide, ?_, ?_, ?_⟩
  · rw [closestAnchorVec2ByAngle,
      show c3List = [anchorNW, anchorW, anchorN] from rfl]
    simp only [closestByAngleLoop, headAnchor]
    rw [hangb, hanga, hangc, hNW, hW, hN, hdNW, hdW, hdN]
    have hc1 : ¬ |Real.arcsin (32 / 257) - NUMBER_MAX_VALUE| < 0.1 := by
      intro habs
      have h1 := (abs_lt.mp habs).1
      linarith
    rw [if_neg hc1]
    have hc2 : Real.arcsin (32 / 257) < NUMBER_MAX_VALUE := by linarith
    rw [if_pos hc2]
    have hc3 : |Real.arcsin (36 / 325) - Real.arcsin (32 / 257)| < 0.1 := by
      rw [abs_lt]
      constructor <;> linarith
    rw [if_pos hc3]
    have hc4 : (2071875 : ℝ) < 2075275 := by norm_num
    rw [if_pos hc4]
    have hc5 : ¬ |Real.arcsin (200 / 10001) - Real.arcsin (32 / 257)| < 0.1 := by
      intro habs
      have h1 := (abs_lt.mp habs).1
      linarith
    rw [if_neg hc5]
    have hc6 : Real.arcsin (200 / 10001) < Real.arcsin (32 / 257) := by linarith
    rw [if_pos hc6]
  · rw [hanga, hangc, abs_lt]
    constructor <;> linarith
  · rw [hW, hN, hdW, hdN]
    norm_num

end

end ProjectTv
